import Mathlib

/-!
Verification of the nearest-antenna selector of the topographicProfile
repository (src/analyzer/file_analyzer.py and src/analyzer/distance_utils.py).

The selector reads a table of antenna rows, attaches a distance column
(haversine distance from a reference point, rounded to two decimals),
groups the rows by the pair (distance_km, NomeEntidade) in ascending key
order, and greedily absorbs groups while the number of distinct distances
seen is below `num_antennas` or the number of distinct company names seen
is below the hard-coded bound 2.

We embed the selection loop generically over the type of distance keys so
that it can be run executably with rational keys and also composed with the
real-valued haversine distance.
-/

namespace TopoProfile

/-- One cleaned row of the antennas table, with the columns used by
`FileAnalyzer` (NomeEntidade, Tecnologia, FreqTxMHz, Azimute, Latitude,
Longitude, AlturaAntena).  Latitude and longitude are parsed as numbers
(rounded to 5 decimals by ingestion); the remaining columns are kept as
strings, exactly as `read_csv` does with `dtype=str`. -/
structure AntennaRow where
  nomeEntidade : String
  tecnologia : String
  freqTxMHz : String
  azimute : String
  latitude : ℚ
  longitude : ℚ
  alturaAntena : String
deriving DecidableEq

/-- A row together with its computed `distance_km` column.  The key type `K`
is abstract so the loop can be studied with exact rational keys and also
instantiated with the real-valued haversine distance. -/
structure RowD (K : Type) where
  row : AntennaRow
  distanceKm : K
deriving DecidableEq

/-- The value bundle stored in the result for one company at one distance:
the unique lists of FreqTxMHz, Tecnologia, Azimute and AlturaAntena values
of the group. -/
structure CompanyInfo where
  freq : List String
  tecnologia : List String
  azimute : List String
  altura : List String
deriving DecidableEq

/-- One distance bucket of the result dictionary: the representative
latitude/longitude pair stored under the `lat/lon` key, and the per-company
entries in insertion order. -/
structure Bucket where
  latLon : ℚ × ℚ
  companies : List (String × CompanyInfo)
deriving DecidableEq

/-- The loop state of `get_antennas_to_create_profile`: the python sets
`distances` and `available_companies` and the result dictionary
`available_antennas` (an insertion-ordered association list). -/
structure SelState (K : Type) where
  distances : Finset K
  companies : Finset String
  result : List (K × Bucket)

/-- Pandas `unique` on a column: the list of values with duplicates removed,
keeping the first occurrence of each value. -/
def uniqueAux {α : Type} [DecidableEq α] (seen : List α) : List α → List α
  | [] => []
  | x :: xs => if x ∈ seen then uniqueAux seen xs else x :: uniqueAux (x :: seen) xs

/-- Pandas `Series.unique().tolist()`. -/
def uniqueList {α : Type} [DecidableEq α] (l : List α) : List α := uniqueAux [] l

/-- The `(distance_km, NomeEntidade)` key of each row, in row order. -/
def keysOf {K : Type} (rows : List (RowD K)) : List (K × String) :=
  rows.map fun r => (r.distanceKm, r.row.nomeEntidade)

/-- Ascending-distance order on group keys.  The sorted pandas `groupby`
yields its groups in ascending `(distance_km, NomeEntidade)` order; no
claim observes the tie order among equal distances (the spec leaves it
unspecified), so the model orders groups by ascending distance with a
stable sort, ties staying in first-occurrence order. -/
def keyLE {K : Type} [LinearOrder K] (a b : K × String) : Prop := a.1 ≤ b.1

instance keyLE.decidableRel {K : Type} [LinearOrder K] : DecidableRel (@keyLE K _) :=
  fun a b => inferInstanceAs (Decidable (a.1 ≤ b.1))

instance keyLE.isTotal {K : Type} [LinearOrder K] : IsTotal (K × String) keyLE :=
  ⟨fun a b => le_total a.1 b.1⟩

instance keyLE.isTrans {K : Type} [LinearOrder K] : IsTrans (K × String) keyLE :=
  ⟨fun _ _ _ h h2 => le_trans h h2⟩

/-- The distinct group keys in ascending distance order, as produced by the
sorted pandas `groupby`. -/
def groupKeys {K : Type} [LinearOrder K] [DecidableEq K] (rows : List (RowD K)) :
    List (K × String) :=
  List.insertionSort keyLE (uniqueList (keysOf rows))

/-- The rows of one `(distance_km, NomeEntidade)` group. -/
def groupRows {K : Type} [DecidableEq K] (rows : List (RowD K)) (key : K × String) :
    List (RowD K) :=
  rows.filter fun r => decide (r.distanceKm = key.1) && decide (r.row.nomeEntidade = key.2)

/-- A fresh empty bucket, created by `available_antennas[distance[0]] = {}`. -/
def emptyBucket : Bucket := ⟨(0, 0), []⟩

/-- Ensure the bucket for key `k` exists, appending a fresh one at the end
(python dict insertion order) when it is absent. -/
def ensureBucket {K : Type} [DecidableEq K] (res : List (K × Bucket)) (k : K) :
    List (K × Bucket) :=
  if res.any fun p => decide (p.1 = k) then res else res ++ [(k, emptyBucket)]

/-- Store the representative lat/lon pair in the bucket for key `k`. -/
def setLatLon {K : Type} [DecidableEq K] (res : List (K × Bucket)) (k : K) (ll : ℚ × ℚ) :
    List (K × Bucket) :=
  res.map fun p => if p.1 = k then (p.1, { p.2 with latLon := ll }) else p

/-- Write `b[name] = info` in a bucket dictionary: replace the entry in
place when the name is already a key, append otherwise. -/
def setCompany (b : Bucket) (name : String) (info : CompanyInfo) : Bucket :=
  if b.companies.any fun q => decide (q.1 = name) then
    { b with companies := b.companies.map fun q => if q.1 = name then (name, info) else q }
  else
    { b with companies := b.companies ++ [(name, info)] }

/-- Write `available_antennas[k][name] = info`. -/
def setCompanyAt {K : Type} [DecidableEq K] (res : List (K × Bucket)) (k : K)
    (name : String) (info : CompanyInfo) : List (K × Bucket) :=
  res.map fun p => if p.1 = k then (p.1, setCompany p.2 name info) else p

/-- The body of the absorbing branch of the loop (lines 103 to 127 of
file_analyzer.py): extract the unique value lists of the group, the
representative lat/lon (first unique value of each coordinate column), and
merge everything into the state. -/
def absorbGroup {K : Type} [DecidableEq K] (rows : List (RowD K)) (key : K × String)
    (st : SelState K) : SelState K :=
  let group := groupRows rows key
  let distance := uniqueList (group.map fun r => r.distanceKm)
  let companyName := uniqueList (group.map fun r => r.row.nomeEntidade)
  let lat := (uniqueList (group.map fun r => r.row.latitude)).headD 0
  let lon := (uniqueList (group.map fun r => r.row.longitude)).headD 0
  let info : CompanyInfo :=
    ⟨uniqueList (group.map fun r => r.row.freqTxMHz),
     uniqueList (group.map fun r => r.row.tecnologia),
     uniqueList (group.map fun r => r.row.azimute),
     uniqueList (group.map fun r => r.row.alturaAntena)⟩
  match distance with
  | [] => { st with companies := st.companies ∪ companyName.toFinset }
  | d0 :: _ =>
    let res0 := ensureBucket st.result d0
    let res1 := setLatLon res0 d0 (lat, lon)
    let res2 := companyName.foldl (fun r name => setCompanyAt r d0 name info) res1
    { distances := st.distances ∪ distance.toFinset
      companies := st.companies ∪ companyName.toFinset
      result := res2 }

/-- The selection loop: walk the group keys in order; while the number of
distinct distances seen is below `n` (the `num_antennas` argument) or the
number of distinct company names seen is below the hard-coded 2, absorb the
group; otherwise break. -/
def selLoop {K : Type} [DecidableEq K] (n : ℕ) (rows : List (RowD K)) :
    List (K × String) → SelState K → SelState K
  | [], st => st
  | key :: rest, st =>
    if st.distances.card < n ∨ st.companies.card < 2 then
      selLoop n rows rest (absorbGroup rows key st)
    else st

/-- The selector on rows that already carry their `distance_km` column:
`FileAnalyzer.get_antennas_to_create_profile` from the grouped data on. -/
def getAntennasToCreateProfile {K : Type} [LinearOrder K] [DecidableEq K] (n : ℕ)
    (rows : List (RowD K)) : List (K × Bucket) :=
  (selLoop n rows (groupKeys rows) ⟨∅, ∅, []⟩).result

/-- The distance keys of the result, in insertion order. -/
def resultKeys {K : Type} (res : List (K × Bucket)) : List K := res.map Prod.fst

/-- The `(distance, company)` pairs represented in the result: one pair per
company entry of each bucket. -/
def resultPairs {K : Type} (res : List (K × Bucket)) : List (K × String) :=
  (res.map fun p => p.2.companies.map fun q => (p.1, q.1)).flatten

/-- The distinct company names appearing in the result. -/
def resultOps {K : Type} (res : List (K × Bucket)) : Finset String :=
  ((resultPairs res).map Prod.snd).toFinset

/-- The distinct company names of a row set. -/
def totalOps {K : Type} (rows : List (RowD K)) : Finset String :=
  (rows.map fun r => r.row.nomeEntidade).toFinset

/-- The distinct distance keys of a row set. -/
def totalDistances {K : Type} [DecidableEq K] (rows : List (RowD K)) : Finset K :=
  (rows.map fun r => r.distanceKm).toFinset

/-- Modelled from the claim text of the stopping rule: walk the keys in
order, tracking the set of distinct distances and distinct operators seen so
far, absorb a key exactly when the distance count is below `n` or the
operator count is below 2, and stop at the first key where both minimums
are met.  Returns the list of absorbed keys. -/
def specSelect {K : Type} [DecidableEq K] (n : ℕ) :
    List (K × String) → Finset K → Finset String → List (K × String)
  | [], _, _ => []
  | k :: ks, D, C =>
    if D.card < n ∨ C.card < 2 then k :: specSelect n ks (insert k.1 D) (insert k.2 C)
    else []

/-! ### The haversine distance and the full real-valued pipeline -/

/-- Earth radius in kilometers, from distance_utils.py. -/
def EARTH_RADIUS_KM : ℝ := 6371

/-- The haversine great-circle distance of distance_utils.py, idealized
over the real numbers: degrees are converted to radians, and the distance
is `2 R arcsin (sqrt a)` with
`a = sin^2 (dlat / 2) + cos lat1 * cos lat2 * sin^2 (dlon / 2)`. -/
noncomputable def haversine (lat1 lon1 lat2 lon2 : ℝ) : ℝ :=
  let rlat1 := lat1 * (Real.pi / 180)
  let rlon1 := lon1 * (Real.pi / 180)
  let rlat2 := lat2 * (Real.pi / 180)
  let rlon2 := lon2 * (Real.pi / 180)
  let dlat := rlat2 - rlat1
  let dlon := rlon2 - rlon1
  let a := Real.sin (dlat / 2) ^ 2 +
    Real.cos rlat1 * Real.cos rlat2 * Real.sin (dlon / 2) ^ 2
  let c := 2 * Real.arcsin (Real.sqrt a)
  EARTH_RADIUS_KM * c

/-- Python `round(x, 2)`: rounding to two decimal places. -/
noncomputable def round2 (x : ℝ) : ℝ := (round (x * 100) : ℤ) / 100

/-- Ascending order of rows by their distance column, for
`sort_values(by="distance_km", ascending=True)`. -/
def rowLE {K : Type} [LinearOrder K] (a b : RowD K) : Prop := a.distanceKm ≤ b.distanceKm

instance rowLE.decidableRel {K : Type} [LinearOrder K] : DecidableRel (@rowLE K _) :=
  fun a b => inferInstanceAs (Decidable (a.distanceKm ≤ b.distanceKm))

instance rowLE.isTotal {K : Type} [LinearOrder K] : IsTotal (RowD K) rowLE :=
  ⟨fun a b => le_total a.distanceKm b.distanceKm⟩

instance rowLE.isTrans {K : Type} [LinearOrder K] : IsTrans (RowD K) rowLE :=
  ⟨fun _ _ _ h h2 => le_trans h h2⟩

/-- `FileAnalyzer.__create_df_with_distance_column`: attach to every record
the `distance_km` column, the haversine distance from the reference point
rounded to two decimals, and sort by it ascending. -/
noncomputable def createDfWithDistanceColumn (ref : ℝ × ℝ) (records : List AntennaRow) :
    List (RowD ℝ) :=
  List.insertionSort rowLE
    (records.map fun r =>
      ⟨r, round2 (haversine ref.1 ref.2 (r.latitude : ℝ) (r.longitude : ℝ))⟩)

/-- The full `FileAnalyzer.get_antennas_to_create_profile`: build the
distance column from the reference point, group, and run the selection
loop. -/
noncomputable def getAntennasReal (n : ℕ) (ref : ℝ × ℝ) (records : List AntennaRow) :
    List (ℝ × Bucket) :=
  getAntennasToCreateProfile n (createDfWithDistanceColumn ref records)

/-- The method call as a state transformer on the `FileAnalyzer` object:
`get_antennas_to_create_profile` reads `self.antennas_df`, copies it before
adding the distance column (line 68), and never reassigns any attribute, so
the object state it returns is the one it received. -/
noncomputable def getAntennasMethod (df : List AntennaRow) (n : ℕ) (ref : ℝ × ℝ) :
    List (ℝ × Bucket) × List AntennaRow :=
  (getAntennasReal n ref df, df)

/-! ### Concrete sample inputs used by counterexamples and witnesses -/

/-- A sample row with the given company name and distance key. -/
def mkRow (nome : String) (d : ℚ) : RowD ℚ :=
  ⟨⟨nome, "LTE", "700", "0", 0, 0, "30"⟩, d⟩

/-- Three rows of three different companies, all at rounded distance 1. -/
def rowsTie : List (RowD ℚ) := [mkRow "A" 1, mkRow "B" 1, mkRow "C" 1]

/-- The scenario of the spec: company A at distances 1, 2, 3 and company B
at distance 4. -/
def rowsScenario : List (RowD ℚ) :=
  [mkRow "A" 1, mkRow "A" 2, mkRow "A" 3, mkRow "B" 4]

/-- A single-row table. -/
def rowsOne : List (RowD ℚ) := [mkRow "A" 1]

/-- A sample antenna record located at the origin. -/
def antOrigin : AntennaRow := ⟨"A", "LTE", "700", "0", 0, 0, "30"⟩

/-- The row the distance pipeline produces for `antOrigin` from reference
point `(0, 0)`. -/
noncomputable def rdOrigin : RowD ℝ :=
  ⟨antOrigin, round2 (haversine ((0 : ℝ), (0 : ℝ)).1 ((0 : ℝ), (0 : ℝ)).2
    (antOrigin.latitude : ℝ) (antOrigin.longitude : ℝ))⟩

end TopoProfile

namespace TopoProfile

/-! ### Properties of uniqueList -/

theorem mem_uniqueAux {α : Type} [DecidableEq α] {x : α} :
    ∀ {seen l : List α}, x ∈ uniqueAux seen l ↔ x ∈ l ∧ x ∉ seen := by
  intro seen l
  induction l generalizing seen with
  | nil => simp [uniqueAux]
  | cons a as ih =>
    simp only [uniqueAux]
    split <;> rename_i h
    · rw [ih]
      simp only [List.mem_cons]
      constructor
      · exact fun ⟨h1, h2⟩ => ⟨Or.inr h1, h2⟩
      · rintro ⟨rfl | h1, h2⟩
        · exact absurd h h2
        · exact ⟨h1, h2⟩
    · simp only [List.mem_cons, ih, List.mem_cons]
      by_cases hxa : x = a
      · subst hxa; simp [h]
      · simp [hxa]

theorem mem_uniqueList {α : Type} [DecidableEq α] {x : α} {l : List α} :
    x ∈ uniqueList l ↔ x ∈ l := by
  simp [uniqueList, mem_uniqueAux]

theorem uniqueAux_eq_nil {α : Type} [DecidableEq α] {seen l : List α}
    (h : ∀ x ∈ l, x ∈ seen) : uniqueAux seen l = [] := by
  induction l generalizing seen with
  | nil => rfl
  | cons a as ih =>
    simp only [uniqueAux, if_pos (h a (List.mem_cons_self a as))]
    exact ih fun x hx => h x (List.mem_cons_of_mem a hx)

theorem uniqueList_const {α : Type} [DecidableEq α] {l : List α} {a : α} (hne : l ≠ [])
    (h : ∀ x ∈ l, x = a) : uniqueList l = [a] := by
  cases l with
  | nil => exact absurd rfl hne
  | cons b bs =>
    have hb : b = a := h b (List.mem_cons_self b bs)
    subst hb
    simp only [uniqueList, uniqueAux, List.not_mem_nil, if_neg (fun h => h)]
    rw [uniqueAux_eq_nil]
    intro x hx
    rw [h x (List.mem_cons_of_mem b hx)]
    exact List.mem_cons_self b []

/-! ### Properties of the grouping -/

theorem mem_groupKeys {K : Type} [LinearOrder K] [DecidableEq K] {k : K × String}
    {rows : List (RowD K)} : k ∈ groupKeys rows ↔ k ∈ keysOf rows := by
  simp [groupKeys, List.mem_insertionSort, mem_uniqueList]

theorem groupKeys_ne_nil {K : Type} [LinearOrder K] [DecidableEq K] {rows : List (RowD K)}
    (h : rows ≠ []) : groupKeys rows ≠ [] := by
  cases rows with
  | nil => exact absurd rfl h
  | cons r rs =>
    have hmem : (r.distanceKm, r.row.nomeEntidade) ∈ groupKeys (r :: rs) := by
      rw [mem_groupKeys]
      exact List.mem_map_of_mem _ (List.mem_cons_self r rs)
    exact List.ne_nil_of_mem hmem

theorem exists_row_of_mem_keysOf {K : Type} {k : K × String} {rows : List (RowD K)}
    (h : k ∈ keysOf rows) :
    ∃ r ∈ rows, r.distanceKm = k.1 ∧ r.row.nomeEntidade = k.2 := by
  rw [keysOf, List.mem_map] at h
  obtain ⟨r, hr, hk⟩ := h
  exact ⟨r, hr, by rw [← hk], by rw [← hk]⟩

theorem mem_groupRows {K : Type} [DecidableEq K] {r : RowD K} {rows : List (RowD K)}
    {k : K × String} :
    r ∈ groupRows rows k ↔ r ∈ rows ∧ r.distanceKm = k.1 ∧ r.row.nomeEntidade = k.2 := by
  simp [groupRows, List.mem_filter]

theorem groupRows_ne_nil {K : Type} [DecidableEq K] {rows : List (RowD K)} {k : K × String}
    (h : k ∈ keysOf rows) : groupRows rows k ≠ [] := by
  obtain ⟨r, hr, h1, h2⟩ := exists_row_of_mem_keysOf h
  exact List.ne_nil_of_mem (mem_groupRows.mpr ⟨hr, h1, h2⟩)

/-! ### Properties of the result dictionary operations -/

theorem mem_resultPairs {K : Type} {x : K × String} {res : List (K × Bucket)} :
    x ∈ resultPairs res ↔
      ∃ p ∈ res, p.1 = x.1 ∧ ∃ q ∈ p.2.companies, q.1 = x.2 := by
  simp only [resultPairs, List.mem_flatten, List.mem_map]
  constructor
  · rintro ⟨l, ⟨p, hp, rfl⟩, hx⟩
    simp only [List.mem_map] at hx
    obtain ⟨q, hq, rfl⟩ := hx
    exact ⟨p, hp, rfl, q, hq, rfl⟩
  · rintro ⟨p, hp, h1, q, hq, h2⟩
    refine ⟨_, ⟨p, hp, rfl⟩, List.mem_map.mpr ⟨q, hq, ?_⟩⟩
    obtain ⟨x1, x2⟩ := x
    cases h1
    cases h2
    rfl

theorem mem_resultKeys {K : Type} {d : K} {res : List (K × Bucket)} :
    d ∈ resultKeys res ↔ ∃ p ∈ res, p.1 = d := by
  simp [resultKeys, List.mem_map]

theorem mem_resultKeys_ensureBucket {K : Type} [DecidableEq K] {res : List (K × Bucket)}
    {k d : K} :
    d ∈ resultKeys (ensureBucket res k) ↔ d ∈ resultKeys res ∨ d = k := by
  simp only [ensureBucket]
  split <;> rename_i h
  · simp only [List.any_eq_true, decide_eq_true_eq] at h
    obtain ⟨p, hp, hpk⟩ := h
    constructor
    · exact Or.inl
    · rintro (hd | rfl)
      · exact hd
      · exact hpk ▸ List.mem_map_of_mem _ hp
  · simp [resultKeys]

theorem resultPairs_ensureBucket {K : Type} [DecidableEq K] {res : List (K × Bucket)}
    {k : K} : resultPairs (ensureBucket res k) = resultPairs res := by
  simp only [ensureBucket]
  split
  · rfl
  · simp [resultPairs, emptyBucket]

theorem resultKeys_setLatLon {K : Type} [DecidableEq K] {res : List (K × Bucket)} {k : K}
    {ll : ℚ × ℚ} : resultKeys (setLatLon res k ll) = resultKeys res := by
  simp only [resultKeys, setLatLon, List.map_map]
  refine List.map_congr_left fun p _ => ?_
  by_cases h : p.1 = k <;> simp [h]

theorem resultPairs_setLatLon {K : Type} [DecidableEq K] {res : List (K × Bucket)} {k : K}
    {ll : ℚ × ℚ} : resultPairs (setLatLon res k ll) = resultPairs res := by
  simp only [resultPairs, setLatLon, List.map_map]
  congr 1
  refine List.map_congr_left fun p _ => ?_
  by_cases h : p.1 = k <;> simp [h]

theorem resultKeys_setCompanyAt {K : Type} [DecidableEq K] {res : List (K × Bucket)} {k : K}
    {name : String} {info : CompanyInfo} :
    resultKeys (setCompanyAt res k name info) = resultKeys res := by
  simp only [resultKeys, setCompanyAt, List.map_map]
  refine List.map_congr_left fun p _ => ?_
  by_cases h : p.1 = k <;> simp [h]

theorem mem_names_setCompany {b : Bucket} {name c : String} {info : CompanyInfo} :
    (∃ q ∈ (setCompany b name info).companies, q.1 = c) ↔
      (∃ q ∈ b.companies, q.1 = c) ∨ c = name := by
  simp only [setCompany]
  split <;> rename_i h
  · simp only [List.any_eq_true, decide_eq_true_eq] at h
    obtain ⟨q0, hq0, hq0n⟩ := h
    have hnames : ∀ q : String × CompanyInfo,
        ((if q.1 = name then (name, info) else q) : String × CompanyInfo).1 = q.1 := by
      intro q; by_cases hq : q.1 = name <;> simp [hq]
    constructor
    · rintro ⟨q, hq, rfl⟩
      simp only [List.mem_map] at hq
      obtain ⟨q1, hq1, rfl⟩ := hq
      exact Or.inl ⟨q1, hq1, (hnames q1).symm⟩
    · rintro (⟨q, hq, rfl⟩ | rfl)
      · exact ⟨_, List.mem_map_of_mem _ hq, hnames q⟩
      · exact ⟨_, List.mem_map_of_mem _ hq0, (hnames q0).trans hq0n⟩
  · constructor
    · rintro ⟨q, hq, rfl⟩
      rcases List.mem_append.mp hq with hq1 | hq1
      · exact Or.inl ⟨q, hq1, rfl⟩
      · rcases List.mem_singleton.mp hq1 with rfl
        exact Or.inr rfl
    · rintro (⟨q, hq, rfl⟩ | rfl)
      · exact ⟨q, List.mem_append_left _ hq, rfl⟩
      · exact ⟨_, List.mem_append_right _ (List.mem_singleton.mpr rfl), rfl⟩

theorem mem_resultPairs_setCompanyAt {K : Type} [DecidableEq K] {res : List (K × Bucket)}
    {k : K} {name : String} {info : CompanyInfo} (hk : k ∈ resultKeys res) {x : K × String} :
    x ∈ resultPairs (setCompanyAt res k name info) ↔ x ∈ resultPairs res ∨ x = (k, name) := by
  rw [mem_resultPairs, mem_resultPairs]
  constructor
  · rintro ⟨p, hp, h1, hq⟩
    rw [setCompanyAt, List.mem_map] at hp
    obtain ⟨p0, hp0, rfl⟩ := hp
    by_cases hpk : p0.1 = k
    · rw [if_pos hpk] at h1 hq
      simp only at h1 hq
      rcases mem_names_setCompany.mp hq with hq1 | hq1
      · exact Or.inl ⟨p0, hp0, h1, hq1⟩
      · refine Or.inr ?_
        obtain ⟨x1, x2⟩ := x
        simp only at h1 hq1
        rw [Prod.mk.injEq]
        exact ⟨h1 ▸ hpk.symm ▸ rfl, hq1⟩
    · rw [if_neg hpk] at h1 hq
      exact Or.inl ⟨p0, hp0, h1, hq⟩
  · rintro (⟨p, hp, h1, hq⟩ | rfl)
    · by_cases hpk : p.1 = k
      · refine ⟨(p.1, setCompany p.2 name info), ?_, h1, ?_⟩
        · rw [setCompanyAt, List.mem_map]
          exact ⟨p, hp, by rw [if_pos hpk]⟩
        · exact mem_names_setCompany.mpr (Or.inl hq)
      · refine ⟨p, ?_, h1, hq⟩
        rw [setCompanyAt, List.mem_map]
        exact ⟨p, hp, by rw [if_neg hpk]⟩
    · obtain ⟨p0, hp0, hp0k⟩ := mem_resultKeys.mp hk
      refine ⟨(p0.1, setCompany p0.2 name info), ?_, hp0k, ?_⟩
      · rw [setCompanyAt, List.mem_map]
        exact ⟨p0, hp0, by rw [if_pos hp0k]⟩
      · exact mem_names_setCompany.mpr (Or.inr rfl)

end TopoProfile

namespace TopoProfile

/-! ### Characterization of one absorption step -/

theorem absorb_distance_eq {K : Type} [LinearOrder K] [DecidableEq K] {rows : List (RowD K)}
    {key : K × String} (hk : key ∈ keysOf rows) :
    uniqueList ((groupRows rows key).map fun r => r.distanceKm) = [key.1] := by
  apply uniqueList_const
  · intro h
    exact groupRows_ne_nil hk (List.map_eq_nil_iff.mp h)
  · intro x hx
    rw [List.mem_map] at hx
    obtain ⟨r, hr, rfl⟩ := hx
    exact (mem_groupRows.mp hr).2.1

theorem absorb_company_eq {K : Type} [LinearOrder K] [DecidableEq K] {rows : List (RowD K)}
    {key : K × String} (hk : key ∈ keysOf rows) :
    uniqueList ((groupRows rows key).map fun r => r.row.nomeEntidade) = [key.2] := by
  apply uniqueList_const
  · intro h
    exact groupRows_ne_nil hk (List.map_eq_nil_iff.mp h)
  · intro x hx
    rw [List.mem_map] at hx
    obtain ⟨r, hr, rfl⟩ := hx
    exact (mem_groupRows.mp hr).2.2

theorem absorbGroup_shape {K : Type} [LinearOrder K] [DecidableEq K] {rows : List (RowD K)}
    {key : K × String} {st : SelState K} (hk : key ∈ keysOf rows) :
    ∃ (ll : ℚ × ℚ) (info : CompanyInfo),
      (absorbGroup rows key st).distances = insert key.1 st.distances ∧
      (absorbGroup rows key st).companies = insert key.2 st.companies ∧
      (absorbGroup rows key st).result =
        setCompanyAt (setLatLon (ensureBucket st.result key.1) key.1 ll) key.1 key.2 info := by
  simp only [absorbGroup, absorb_distance_eq hk, absorb_company_eq hk, List.foldl_cons,
    List.foldl_nil, List.toFinset_cons, List.toFinset_nil, insert_emptyc_eq]
  refine ⟨_, _, ?_, ?_, rfl⟩ <;>
  · ext a
    simp [or_comm]

theorem absorbGroup_parts {K : Type} [LinearOrder K] [DecidableEq K] {rows : List (RowD K)}
    {key : K × String} {st : SelState K} (hk : key ∈ keysOf rows) :
    (absorbGroup rows key st).distances = insert key.1 st.distances ∧
    (absorbGroup rows key st).companies = insert key.2 st.companies ∧
    (∀ x : K × String, x ∈ resultPairs (absorbGroup rows key st).result ↔
      x ∈ resultPairs st.result ∨ x = key) ∧
    (∀ d : K, d ∈ resultKeys (absorbGroup rows key st).result ↔
      d ∈ resultKeys st.result ∨ d = key.1) := by
  obtain ⟨ll, info, h1, h2, h3⟩ := absorbGroup_shape hk
  have hkeymem : key.1 ∈ resultKeys (setLatLon (ensureBucket st.result key.1) key.1 ll) := by
    rw [resultKeys_setLatLon, mem_resultKeys_ensureBucket]
    exact Or.inr rfl
  refine ⟨h1, h2, ?_, ?_⟩
  · intro x
    rw [h3, mem_resultPairs_setCompanyAt hkeymem, resultPairs_setLatLon,
      resultPairs_ensureBucket]
  · intro d
    rw [h3, resultKeys_setCompanyAt, resultKeys_setLatLon, mem_resultKeys_ensureBucket]

/-! ### The loop refines the claimed stopping rule -/

theorem selLoop_spec {K : Type} [LinearOrder K] [DecidableEq K] (n : ℕ)
    (rows : List (RowD K)) :
    ∀ (ks : List (K × String)) (st : SelState K), (∀ k ∈ ks, k ∈ keysOf rows) →
      (selLoop n rows ks st).distances =
          st.distances ∪ ((specSelect n ks st.distances st.companies).map Prod.fst).toFinset ∧
      (selLoop n rows ks st).companies =
          st.companies ∪ ((specSelect n ks st.distances st.companies).map Prod.snd).toFinset ∧
      (∀ x : K × String, x ∈ resultPairs (selLoop n rows ks st).result ↔
        x ∈ resultPairs st.result ∨ x ∈ specSelect n ks st.distances st.companies) ∧
      (∀ d : K, d ∈ resultKeys (selLoop n rows ks st).result ↔
        d ∈ resultKeys st.result ∨
          d ∈ (specSelect n ks st.distances st.companies).map Prod.fst) := by
  intro ks
  induction ks with
  | nil =>
    intro st _
    simp [selLoop, specSelect]
  | cons k rest ih =>
    intro st hks
    have hk : k ∈ keysOf rows := hks k (List.mem_cons_self k rest)
    obtain ⟨hd, hc, hp, hkeys⟩ := @absorbGroup_parts K _ _ rows k st hk
    by_cases hcond : st.distances.card < n ∨ st.companies.card < 2
    · have hsel : selLoop n rows (k :: rest) st = selLoop n rows rest (absorbGroup rows k st) := by
        rw [selLoop, if_pos hcond]
      have hspec : specSelect n (k :: rest) st.distances st.companies =
          k :: specSelect n rest (insert k.1 st.distances) (insert k.2 st.companies) := by
        rw [specSelect, if_pos hcond]
      obtain ⟨ih1, ih2, ih3, ih4⟩ :=
        ih (absorbGroup rows k st) (fun k2 hk2 => hks k2 (List.mem_cons_of_mem k hk2))
      rw [hd] at ih1 ih2 ih3 ih4
      rw [hc] at ih1 ih2 ih3 ih4
      refine ⟨?_, ?_, ?_, ?_⟩
      · rw [hsel, hspec, ih1]
        ext a
        simp only [List.map_cons, List.toFinset_cons, Finset.mem_union, Finset.mem_insert]
        tauto
      · rw [hsel, hspec, ih2]
        ext a
        simp only [List.map_cons, List.toFinset_cons, Finset.mem_union, Finset.mem_insert]
        tauto
      · intro x
        rw [hsel, hspec, ih3 x, hp x, List.mem_cons]
        tauto
      · intro d
        rw [hsel, hspec, ih4 d, hkeys d, List.map_cons, List.mem_cons]
        tauto
    · have hsel : selLoop n rows (k :: rest) st = st := by
        rw [selLoop, if_neg hcond]
      have hspec : specSelect n (k :: rest) st.distances st.companies = [] := by
        rw [specSelect, if_neg hcond]
      rw [hsel, hspec]
      simp

/-! ### Properties of the claimed stopping rule -/

theorem specSelect_subset {K : Type} [DecidableEq K] (n : ℕ) :
    ∀ (ks : List (K × String)) (D : Finset K) (C : Finset String) (x : K × String),
      x ∈ specSelect n ks D C → x ∈ ks := by
  intro ks
  induction ks with
  | nil => intro D C x h; simp [specSelect] at h
  | cons k rest ih =>
    intro D C x h
    rw [specSelect] at h
    split at h
    · rcases List.mem_cons.mp h with rfl | h2
      · exact List.mem_cons_self _ _
      · exact List.mem_cons_of_mem _ (ih _ _ x h2)
    · simp at h

theorem specSelect_stop {K : Type} [DecidableEq K] (n : ℕ) :
    ∀ (ks : List (K × String)) (D : Finset K) (C : Finset String) (k : K × String),
      k ∈ ks → k ∉ specSelect n ks D C →
      n ≤ (D ∪ ((specSelect n ks D C).map Prod.fst).toFinset).card ∧
      2 ≤ (C ∪ ((specSelect n ks D C).map Prod.snd).toFinset).card := by
  intro ks
  induction ks with
  | nil => intro D C k hk; exact absurd hk (List.not_mem_nil k)
  | cons a rest ih =>
    intro D C k hk hns
    rw [specSelect]
    split <;> rename_i hcond
    · rw [specSelect, if_pos hcond] at hns
      have hka : k ≠ a := by
        rintro rfl
        exact hns (List.mem_cons_self _ _)
      have hkr : k ∈ rest := (List.mem_cons.mp hk).resolve_left hka
      have hnr : k ∉ specSelect n rest (insert a.1 D) (insert a.2 C) :=
        fun h => hns (List.mem_cons_of_mem _ h)
      obtain ⟨h1, h2⟩ := ih (insert a.1 D) (insert a.2 C) k hkr hnr
      constructor
      · refine le_trans h1 (le_of_eq ?_)
        congr 1
        ext z
        simp only [Finset.mem_union, Finset.mem_insert, List.map_cons, List.toFinset_cons,
          List.mem_toFinset]
        tauto
      · refine le_trans h2 (le_of_eq ?_)
        congr 1
        ext z
        simp only [Finset.mem_union, Finset.mem_insert, List.map_cons, List.toFinset_cons,
          List.mem_toFinset]
        tauto
    · push_neg at hcond
      simp only [List.map_nil, List.toFinset_nil, Finset.union_empty]
      exact ⟨hcond.1, hcond.2⟩

theorem specSelect_cases {K : Type} [DecidableEq K] (n : ℕ) :
    ∀ (ks : List (K × String)) (D : Finset K) (C : Finset String),
      specSelect n ks D C = ks ∨
      (n ≤ (D ∪ ((specSelect n ks D C).map Prod.fst).toFinset).card ∧
       2 ≤ (C ∪ ((specSelect n ks D C).map Prod.snd).toFinset).card) := by
  intro ks
  induction ks with
  | nil => intro D C; exact Or.inl rfl
  | cons a rest ih =>
    intro D C
    by_cases hcond : D.card < n ∨ C.card < 2
    · rw [specSelect, if_pos hcond]
      rcases ih (insert a.1 D) (insert a.2 C) with h | ⟨h1, h2⟩
      · exact Or.inl (by rw [h])
      · refine Or.inr ⟨le_trans h1 (le_of_eq ?_), le_trans h2 (le_of_eq ?_)⟩ <;>
        · congr 1
          ext z
          simp only [Finset.mem_union, Finset.mem_insert, List.map_cons, List.toFinset_cons,
            List.mem_toFinset]
          tauto
    · rw [specSelect, if_neg hcond]
      push_neg at hcond
      simp only [List.map_nil, List.toFinset_nil, Finset.union_empty]
      exact Or.inr ⟨hcond.1, hcond.2⟩

theorem specSelect_all {K : Type} [DecidableEq K] (n : ℕ) :
    ∀ (ks : List (K × String)) (D : Finset K) (C : Finset String),
      ((D ∪ (ks.map Prod.fst).toFinset).card < n ∨
        (C ∪ (ks.map Prod.snd).toFinset).card < 2) →
      specSelect n ks D C = ks := by
  intro ks
  induction ks with
  | nil => intro D C _; rfl
  | cons a rest ih =>
    intro D C h
    have hcond : D.card < n ∨ C.card < 2 := by
      rcases h with h | h
      · exact Or.inl (lt_of_le_of_lt (Finset.card_le_card Finset.subset_union_left) h)
      · exact Or.inr (lt_of_le_of_lt (Finset.card_le_card Finset.subset_union_left) h)
    rw [specSelect, if_pos hcond]
    congr 1
    apply ih
    have hDeq : insert a.1 D ∪ (rest.map Prod.fst).toFinset =
        D ∪ ((a :: rest).map Prod.fst).toFinset := by
      ext z
      simp only [Finset.mem_union, Finset.mem_insert, List.map_cons, List.toFinset_cons,
        List.mem_toFinset]
      tauto
    have hCeq : insert a.2 C ∪ (rest.map Prod.snd).toFinset =
        C ∪ ((a :: rest).map Prod.snd).toFinset := by
      ext z
      simp only [Finset.mem_union, Finset.mem_insert, List.map_cons, List.toFinset_cons,
        List.mem_toFinset]
      tauto
    rw [hDeq, hCeq]
    exact h

theorem specSelect_ne_nil {K : Type} [DecidableEq K] {n : ℕ} {ks : List (K × String)}
    {D : Finset K} {C : Finset String} (hks : ks ≠ []) (hC : C.card < 2) :
    specSelect n ks D C ≠ [] := by
  cases ks with
  | nil => exact absurd rfl hks
  | cons a rest =>
    rw [specSelect, if_pos (Or.inr hC)]
    exact List.cons_ne_nil _ _

end TopoProfile
namespace TopoProfile

theorem getAntennas_pairs {K : Type} [LinearOrder K] [DecidableEq K] (n : ℕ)
    (rows : List (RowD K)) (x : K × String) :
    x ∈ resultPairs (getAntennasToCreateProfile n rows) ↔
      x ∈ specSelect n (groupKeys rows) ∅ ∅ := by
  obtain ⟨h1, h2, h3, h4⟩ := selLoop_spec n rows (groupKeys rows) ⟨∅, ∅, []⟩
    (fun k hk => mem_groupKeys.mp hk)
  rw [getAntennasToCreateProfile, h3 x]
  simp [resultPairs]

theorem getAntennas_keys {K : Type} [LinearOrder K] [DecidableEq K] (n : ℕ)
    (rows : List (RowD K)) (d : K) :
    d ∈ resultKeys (getAntennasToCreateProfile n rows) ↔
      d ∈ (specSelect n (groupKeys rows) ∅ ∅).map Prod.fst := by
  obtain ⟨h1, h2, h3, h4⟩ := selLoop_spec n rows (groupKeys rows) ⟨∅, ∅, []⟩
    (fun k hk => mem_groupKeys.mp hk)
  rw [getAntennasToCreateProfile, h4 d]
  simp [resultKeys]

theorem resultOps_getAntennas {K : Type} [LinearOrder K] [DecidableEq K] (n : ℕ)
    (rows : List (RowD K)) :
    resultOps (getAntennasToCreateProfile n rows) =
      ((specSelect n (groupKeys rows) ∅ ∅).map Prod.snd).toFinset := by
  ext c
  simp only [resultOps, List.mem_toFinset, List.mem_map]
  constructor
  · rintro ⟨x, hx, rfl⟩
    exact ⟨x, (getAntennas_pairs n rows x).mp hx, rfl⟩
  · rintro ⟨x, hx, rfl⟩
    exact ⟨x, (getAntennas_pairs n rows x).mpr hx, rfl⟩

theorem resultKeys_toFinset_getAntennas {K : Type} [LinearOrder K] [DecidableEq K] (n : ℕ)
    (rows : List (RowD K)) :
    (resultKeys (getAntennasToCreateProfile n rows)).toFinset =
      ((specSelect n (groupKeys rows) ∅ ∅).map Prod.fst).toFinset := by
  ext d
  rw [List.mem_toFinset, List.mem_toFinset]
  exact getAntennas_keys n rows d

theorem groupKeys_fst_toFinset {K : Type} [LinearOrder K] [DecidableEq K]
    (rows : List (RowD K)) :
    ((groupKeys rows).map Prod.fst).toFinset = totalDistances rows := by
  ext z
  simp only [List.mem_toFinset, List.mem_map, totalDistances]
  constructor
  · rintro ⟨k, hk, rfl⟩
    obtain ⟨r, hr, h1, h2⟩ := exists_row_of_mem_keysOf (mem_groupKeys.mp hk)
    exact ⟨r, hr, h1⟩
  · rintro ⟨r, hr, rfl⟩
    exact ⟨(r.distanceKm, r.row.nomeEntidade),
      mem_groupKeys.mpr (List.mem_map_of_mem _ hr), rfl⟩

theorem groupKeys_snd_toFinset {K : Type} [LinearOrder K] [DecidableEq K]
    (rows : List (RowD K)) :
    ((groupKeys rows).map Prod.snd).toFinset = totalOps rows := by
  ext z
  simp only [List.mem_toFinset, List.mem_map, totalOps]
  constructor
  · rintro ⟨k, hk, rfl⟩
    obtain ⟨r, hr, h1, h2⟩ := exists_row_of_mem_keysOf (mem_groupKeys.mp hk)
    exact ⟨r, hr, h2⟩
  · rintro ⟨r, hr, rfl⟩
    exact ⟨(r.distanceKm, r.row.nomeEntidade),
      mem_groupKeys.mpr (List.mem_map_of_mem _ hr), rfl⟩

theorem getAntennas_ne_nil {K : Type} [LinearOrder K] [DecidableEq K] {n : ℕ}
    {rows : List (RowD K)} (h : rows ≠ []) :
    getAntennasToCreateProfile n rows ≠ [] := by
  have hne : specSelect n (groupKeys rows) (∅ : Finset K) (∅ : Finset String) ≠ [] :=
    specSelect_ne_nil (groupKeys_ne_nil h) (by simp)
  intro hres
  obtain ⟨x, hx⟩ := List.exists_mem_of_ne_nil _ hne
  have hmem := (getAntennas_pairs n rows x).mpr hx
  rw [hres] at hmem
  simp [resultPairs] at hmem

end TopoProfile

namespace TopoProfile

/-! ### Properties of haversine -/

theorem haversine_self (lat lon : ℝ) : haversine lat lon lat lon = 0 := by
  simp [haversine]

theorem haversine_comm (lat1 lon1 lat2 lon2 : ℝ) :
    haversine lat1 lon1 lat2 lon2 = haversine lat2 lon2 lat1 lon1 := by
  have h : ∀ x y : ℝ, Real.sin ((x - y) / 2) ^ 2 = Real.sin ((y - x) / 2) ^ 2 := by
    intro x y
    rw [show (x - y) / 2 = -((y - x) / 2) by ring, Real.sin_neg, neg_sq]
  simp only [haversine]
  rw [h, h, mul_comm (Real.cos (lat2 * (Real.pi / 180))),
    h (lon1 * (Real.pi / 180)) (lon2 * (Real.pi / 180))]

/-! ### The claims -/

/-- Claim C1, counterexample.  The claim states that ties at the boundary
distance are never split: whenever any group at a rounded distance is
included, every group sharing that distance is included.  This is false:
with three companies A, B, C all at rounded distance 1 and num_antennas 1,
the loop absorbs the groups (1, A) and (1, B), then stops with one distinct
distance and two distinct companies, so the group (1, C) at the same
boundary distance is excluded even though distance 1 is in the result. -/
theorem claim_C1_counterexample :
    (1, "A") ∈ resultPairs (getAntennasToCreateProfile 1 rowsTie) ∧
    (1, "C") ∈ keysOf rowsTie ∧
    (1, "C") ∉ resultPairs (getAntennasToCreateProfile 1 rowsTie) := by
  refine ⟨by decide, by decide, by decide⟩

/-- Claim C1, amended.  A group sharing an included rounded distance can be
excluded, but only when the stopping rule is already fully met: if distance
d is an included bucket while the group of company c at distance d is not
represented in the result, then the result already holds at least
num_antennas distinct distance buckets and at least 2 distinct company
names. -/
theorem claim_C1 (n : ℕ) (rows : List (RowD ℚ)) (d : ℚ) (c : String)
    (_hd : d ∈ resultKeys (getAntennasToCreateProfile n rows))
    (hc : (d, c) ∈ keysOf rows)
    (hnot : (d, c) ∉ resultPairs (getAntennasToCreateProfile n rows)) :
    n ≤ ((resultKeys (getAntennasToCreateProfile n rows)).toFinset).card ∧
    2 ≤ (resultOps (getAntennasToCreateProfile n rows)).card := by
  have hks : (d, c) ∈ groupKeys rows := mem_groupKeys.mpr hc
  have hnspec : (d, c) ∉ specSelect n (groupKeys rows) ∅ ∅ :=
    fun h => hnot ((getAntennas_pairs n rows (d, c)).mpr h)
  obtain ⟨h1, h2⟩ := specSelect_stop n (groupKeys rows) ∅ ∅ (d, c) hks hnspec
  rw [Finset.empty_union] at h1 h2
  rw [resultKeys_toFinset_getAntennas, resultOps_getAntennas]
  exact ⟨h1, h2⟩

/-- Claim C1, witness for the amended theorem at the tie input. -/
theorem claim_C1_witness :
    1 ≤ ((resultKeys (getAntennasToCreateProfile 1 rowsTie)).toFinset).card ∧
    2 ≤ (resultOps (getAntennasToCreateProfile 1 rowsTie)).card :=
  claim_C1 1 rowsTie 1 "C" (by decide) (by decide) (by decide)

/-- Claim C2, counterexample.  The claim states that minimums 0 and 0 give
an empty result on every non-empty record set.  The operator minimum is not
a parameter: it is the hard-coded 2, so with num_antennas 0 and a single
row the condition 0 < 2 on the company count still absorbs the first group
and the result is non-empty. -/
theorem claim_C2_counterexample :
    getAntennasToCreateProfile 0 rowsOne ≠ [] := by decide

/-- Claim C2, amended.  Because the operator minimum is fixed at 2, calling
the selector with num_antennas 0 returns an empty mapping exactly when the
record set is empty; on any non-empty record set at least the first group
is absorbed. -/
theorem claim_C2 (rows : List (RowD ℚ)) :
    getAntennasToCreateProfile 0 rows = [] ↔ rows = [] := by
  constructor
  · intro h
    by_contra hne
    exact getAntennas_ne_nil hne h
  · rintro rfl
    rfl

/-- Claim C3.  The selector walks the groups in ascending-distance order
and a group is represented in the result exactly when the stopping rule
modelled from the claim text absorbs it: groups are taken while the number
of distinct distances seen is below num_antennas or the number of distinct
operators seen is below the hard-coded minimum 2, and the walk stops at the
first group where both minimums are met. -/
theorem claim_C3 (n : ℕ) (rows : List (RowD ℚ)) :
    (groupKeys rows).Sorted keyLE ∧
    ∀ (d : ℚ) (c : String),
      ((d, c) ∈ resultPairs (getAntennasToCreateProfile n rows) ↔
        (d, c) ∈ specSelect n (groupKeys rows) ∅ ∅) :=
  ⟨List.sorted_insertionSort keyLE (uniqueList (keysOf rows)),
   fun d c => getAntennas_pairs n rows (d, c)⟩

/-- Claim C4.  Every row of the distance dataframe carries as distance key
exactly the haversine distance from the reference point to its record,
computed on a sphere of radius 6371 km and rounded to 2 decimals; and every
distance bucket key of the selector result is that quantity for one of the
input records. -/
theorem claim_C4 (ref : ℝ × ℝ) (records : List AntennaRow) :
    (∀ rd ∈ createDfWithDistanceColumn ref records,
      rd.row ∈ records ∧
      rd.distanceKm =
        round2 (haversine ref.1 ref.2 (rd.row.latitude : ℝ) (rd.row.longitude : ℝ))) ∧
    (∀ (n : ℕ) (k : ℝ), k ∈ resultKeys (getAntennasReal n ref records) →
      ∃ r ∈ records,
        k = round2 (haversine ref.1 ref.2 (r.latitude : ℝ) (r.longitude : ℝ))) := by
  have hpart1 : ∀ rd ∈ createDfWithDistanceColumn ref records,
      rd.row ∈ records ∧
      rd.distanceKm =
        round2 (haversine ref.1 ref.2 (rd.row.latitude : ℝ) (rd.row.longitude : ℝ)) := by
    intro rd hrd
    rw [createDfWithDistanceColumn, List.mem_insertionSort, List.mem_map] at hrd
    obtain ⟨r, hr, rfl⟩ := hrd
    exact ⟨hr, rfl⟩
  refine ⟨hpart1, ?_⟩
  intro n k hk
  rw [getAntennasReal, getAntennas_keys, List.mem_map] at hk
  obtain ⟨x, hx, rfl⟩ := hk
  have hxk : x ∈ keysOf (createDfWithDistanceColumn ref records) :=
    mem_groupKeys.mp (specSelect_subset n _ _ _ x hx)
  obtain ⟨rd, hrd, h1, h2⟩ := exists_row_of_mem_keysOf hxk
  obtain ⟨hrow, hdist⟩ := hpart1 rd hrd
  exact ⟨rd.row, hrow, by rw [← h1, hdist]⟩

/-- Claim C4, witness: the single record at the origin passes through the
distance pipeline with its haversine key. -/
theorem claim_C4_witness :
    rdOrigin.row ∈ [antOrigin] ∧
    rdOrigin.distanceKm = round2 (haversine ((0 : ℝ), (0 : ℝ)).1 ((0 : ℝ), (0 : ℝ)).2
      (rdOrigin.row.latitude : ℝ) (rdOrigin.row.longitude : ℝ)) :=
  (claim_C4 ((0 : ℝ), (0 : ℝ)) [antOrigin]).1 rdOrigin (by
    rw [createDfWithDistanceColumn, List.mem_insertionSort, List.mem_map]
    exact ⟨antOrigin, List.mem_singleton.mpr rfl, rfl⟩)

/-- Claim C5.  With company A at rounded distances 1, 2, 3 and company B at
distance 4, num_antennas 2 (and operator minimum 2, hard-coded), the result
holds exactly the buckets 1, 2, 3, 4, the B group at distance 4 included
because operator diversity is not reached before it. -/
theorem claim_C5 :
    resultKeys (getAntennasToCreateProfile 2 rowsScenario) = [1, 2, 3, 4] ∧
    (4, "B") ∈ resultPairs (getAntennasToCreateProfile 2 rowsScenario) := by
  refine ⟨by decide, by decide⟩

/-- Claim C6.  For every num_antennas and reference point, the selector on
an empty record set returns the empty mapping; the model is a total
function, so no exceptional path exists. -/
theorem claim_C6 (n : ℕ) (ref : ℝ × ℝ) : getAntennasReal n ref [] = [] := rfl

/-- Claim C7.  When the whole record set has fewer distinct rounded
distances than num_antennas or fewer distinct operators than the hard-coded
minimum 2, the loop exhausts every group and the result represents every
(distance, operator) group of the data. -/
theorem claim_C7 (n : ℕ) (rows : List (RowD ℚ))
    (h : (totalDistances rows).card < n ∨ (totalOps rows).card < 2) :
    ∀ k ∈ keysOf rows, k ∈ resultPairs (getAntennasToCreateProfile n rows) := by
  have hall : specSelect n (groupKeys rows) (∅ : Finset ℚ) (∅ : Finset String) =
      groupKeys rows := by
    apply specSelect_all
    rw [Finset.empty_union, Finset.empty_union, groupKeys_fst_toFinset,
      groupKeys_snd_toFinset]
    exact h
  intro k hk
  rw [getAntennas_pairs, hall]
  exact mem_groupKeys.mpr hk

/-- Claim C7, witness on a one-row table with num_antennas 2. -/
theorem claim_C7_witness :
    (1, "A") ∈ resultPairs (getAntennasToCreateProfile 2 rowsOne) :=
  claim_C7 2 rowsOne (by decide) (1, "A") (by decide)

/-- Claim C8.  The haversine function is reflexive (a point is at distance
zero from itself) and symmetric in its two coordinate pairs. -/
theorem claim_C8 :
    (∀ lat lon : ℝ, haversine lat lon lat lon = 0) ∧
    (∀ lat1 lon1 lat2 lon2 : ℝ,
      haversine lat1 lon1 lat2 lon2 = haversine lat2 lon2 lat1 lon1) :=
  ⟨haversine_self, haversine_comm⟩

/-- Claim C9.  The selector is deterministic across calls: the method does
not mutate the object state (it copies the dataframe before adding the
distance column), so a second call on the state left by a first call with
the same arguments returns the same result, and the state is the original
one. -/
theorem claim_C9 (df : List AntennaRow) (n : ℕ) (ref : ℝ × ℝ) :
    (getAntennasMethod (getAntennasMethod df n ref).2 n ref).1 =
      (getAntennasMethod df n ref).1 ∧
    (getAntennasMethod (getAntennasMethod df n ref).2 n ref).2 = df :=
  ⟨rfl, rfl⟩

/-- Claim C10.  The distinct-operator threshold is the hard-coded 2, for
every value of num_antennas: on a non-empty record set the result is
non-empty and holds at least min 2 (number of distinct operators of the
data) distinct operator names. -/
theorem claim_C10 (n : ℕ) (rows : List (RowD ℚ)) (h : rows ≠ []) :
    getAntennasToCreateProfile n rows ≠ [] ∧
    min 2 (totalOps rows).card ≤ (resultOps (getAntennasToCreateProfile n rows)).card := by
  refine ⟨getAntennas_ne_nil h, ?_⟩
  rw [resultOps_getAntennas]
  rcases specSelect_cases n (groupKeys rows) ∅ ∅ with hall | ⟨h1, h2⟩
  · rw [hall, groupKeys_snd_toFinset]
    exact min_le_right _ _
  · rw [Finset.empty_union] at h2
    exact le_trans (min_le_left _ _) h2

/-- Claim C10, witness on a one-row table with num_antennas 0. -/
theorem claim_C10_witness :
    getAntennasToCreateProfile 0 rowsOne ≠ [] ∧
    min 2 (totalOps rowsOne).card ≤ (resultOps (getAntennasToCreateProfile 0 rowsOne)).card :=
  claim_C10 0 rowsOne (by decide)

end TopoProfile
